import Mathlib

/-!
Verification of the vendeeglobe race engine against its specification.

The Python sources (utils.py, weather.py, engine.py, main.py) are embedded
shallowly: coordinates, wind components and times are exact rationals;
angles handed to the rendering pipeline are real numbers; numpy arrays
become index functions together with explicit bounds checks; the
floating-point trigonometric kernel distance_on_surface is kept as an
explicit function parameter of the engine steps whose claims do not depend
on its numeric values.
-/

namespace Vendee

/-- Python float modulo `a % b` for `b > 0` (the result carries the sign of
`b`), as applied to degree values in utils.py (`lon_to_phi`, `wrap`). -/
def pymod (a b : ℚ) : ℚ := a - b * ⌊a / b⌋

/-- Embeds utils.longitude_difference: the standard difference of two
longitudes, replaced by the complementary arc across the 180 degree line when
that arc is shorter, keeping the sign of the standard difference. -/
def longitude_difference (lon1 lon2 : ℚ) : ℚ :=
  let lon_diff := lon1 - lon2
  let crossing_diff := 360 - |lon_diff|
  if 0 ≤ lon_diff then min lon_diff crossing_diff
  else -(min (-lon_diff) crossing_diff)

/-- Embeds utils.wrap: reflect a latitude that overshoots a pole
(`max (min lat (180 - lat)) (-180 - lat)`) and renormalize the longitude
into `[-180, 180)`, shifting it by an extra 180 degrees when the latitude
lies beyond a pole (the `np.where` branch). -/
def wrap (lat lon : ℚ) : ℚ × ℚ :=
  let out_lat := max (min lat (180 - lat)) (-180 - lat)
  let shifted := if 90 < lat ∨ lat < -90 then lon + 180 + 180 else lon + 180
  (out_lat, pymod shifted 360 - 180)

/-- Embeds utils.lon_to_phi: `(lon % 360) + 180` degrees converted to
radians by `np.radians`, the azimuth used by the Cartesian conversion. -/
noncomputable def lon_to_phi (lon : ℚ) : ℝ :=
  ((pymod lon 360 + 180 : ℚ) : ℝ) * Real.pi / 180

/-- Dot product of two 2-vectors, as np.dot does in utils.wind_force. -/
def dot2 (a b : ℝ × ℝ) : ℝ := a.1 * b.1 + a.2 * b.2

/-- Euclidean norm of a 2-vector, as np.linalg.norm does in
utils.wind_force. -/
noncomputable def norm2 (a : ℝ × ℝ) : ℝ := Real.sqrt (dot2 a a)

/-- Embeds utils.wind_force: normalize the wind, add it to the ship heading
vector, renormalize the sum, take the absolute dot product with the heading
and return that magnitude times the wind speed, along the heading vector. -/
noncomputable def wind_force (ship_vector wind : ℝ × ℝ) : ℝ × ℝ :=
  let norm := norm2 wind
  let vsum := (ship_vector.1 + wind.1 / norm, ship_vector.2 + wind.2 / norm)
  let vsumn := (vsum.1 / norm2 vsum, vsum.2 / norm2 vsum)
  let mag := |dot2 ship_vector vsumn|
  ((mag * norm) * ship_vector.1, (mag * norm) * ship_vector.2)

/-- Truncation toward zero: the conversion a numpy float-to-int astype
performs on the index arrays of Weather.get_uv. -/
def truncToInt (q : ℚ) : ℤ := if 0 ≤ q then ⌊q⌋ else -⌊-q⌋

/-- Numpy integer indexing on an axis of length n: an index in [-n, n) is
valid (negative values count from the end of the axis), any other index
raises IndexError, modelled by none. -/
def npIndex (n : ℕ) (i : ℤ) : Option ℕ :=
  if -(n : ℤ) ≤ i ∧ i < n then some (i.emod n).toNat else none

/-- Weather field data as laid out by Weather.initialization: nt time
buckets, ny latitude rows, nx longitude columns, cell sizes dv and du in
degrees, bucket length dt, and the generated wind component arrays u, v. -/
structure Weather where
  nt : ℕ
  ny : ℕ
  nx : ℕ
  dv : ℚ
  du : ℚ
  dt : ℚ
  u : ℕ → ℕ → ℕ → ℚ
  v : ℕ → ℕ → ℕ → ℚ

/-- Weather state as Weather.initialization builds it: ny = 128,
nx = 2 * ny = 256, dv = (lat_max - lat_min) / ny, du =
(lon_max - lon_min) / nx, with nt buckets of length
dt = config.weather_update_interval; the procedurally generated wind
component arrays u and v are kept as unconstrained index functions, since
no claim depends on their numeric values. -/
def mkWeather (nt : ℕ) (dt : ℚ) (u v : ℕ → ℕ → ℕ → ℚ) : Weather :=
  { nt := nt, ny := 128, nx := 256, dv := (90 - -90 : ℚ) / 128,
    du := (180 - -180 : ℚ) / 256, dt := dt, u := u, v := v }

/-- Embeds Weather.get_uv: row index from the latitude, column index from
the longitude (both truncated toward zero, unclamped), time index truncated
and then reduced modulo nt; the triple then indexes the u and v arrays,
where an out-of-bounds component is an IndexError (none). -/
def Weather.get_uv (w : Weather) (lat lon t : ℚ) : Option (ℚ × ℚ) :=
  let iv := truncToInt ((lat + 90) / w.dv)
  let iu := truncToInt ((lon + 180) / w.du)
  let it := (truncToInt (t / w.dt)).emod w.nt
  match npIndex w.nt it, npIndex w.ny iv, npIndex w.nx iu with
  | some kt, some kv, some ku => some (w.u kt kv ku, w.v kt kv ku)
  | _, _, _ => none

/-- Two-bucket weather field whose u component distinguishes the two time
buckets, for probing the time index of Weather.get_uv. -/
def weatherC5 : Weather := mkWeather 2 12 (fun kt _ _ => (kt : ℚ))
  (fun _ _ _ => 0)

/-- Per-participant state read by the wind sampling step of
Engine.move_players: the current position and the arrived flag. -/
structure WindPlayer where
  latitude : ℚ
  longitude : ℚ
  arrived : Bool

/-- Embeds the wind sampling of Engine.move_players: the latitude and
longitude arrays collect the positions of ALL players, arrived or not, in
player-collection order, and get_uv is evaluated on those full arrays. -/
def sampled_winds (w : Weather) (players : List WindPlayer) (t : ℚ) :
    List (Option (ℚ × ℚ)) :=
  players.map (fun p => w.get_uv p.latitude p.longitude t)

/-- Embeds the loop filter of Engine.move_players: the iteration runs over
the not-yet-arrived players only, and its enumeration index i is the one
used to pick u[i], v[i] from the full-array samples. -/
def active_players (players : List WindPlayer) : List WindPlayer :=
  players.filter (fun p => !p.arrived)

/-- Weather field whose u component encodes the latitude row index, making
lookups at different latitudes distinguishable. -/
def weatherC2 : Weather := mkWeather 1 12 (fun _ kv _ => (kv : ℚ))
  (fun _ _ _ => 0)

/-- Per-participant state touched by the movement commit of
Engine.move_players. -/
structure NavPlayer where
  latitude : ℚ
  longitude : ℚ
  distance_travelled : ℚ
  dlat : ℚ
  dlon : ℚ

/-- Index selection of Engine.move_players: with w = np.where(terrain ==
0)[0], the chosen index is max(w[0] - 1, 0) when some path point is land,
and len(terrain) - 1 when none is. -/
def chooseInd (terrain : List ℤ) : ℤ :=
  match terrain.findIdx? (fun x => x == 0) with
  | some i => max ((i : ℤ) - 1) 0
  | none => (terrain.length : ℤ) - 1

/-- Embeds the movement commit of Engine.move_players: when the chosen
index is positive the player moves to that path point and the distance
between old and new position is added to its total (the haversine kernel
distance_on_surface enters as the function parameter d); otherwise the
position and total are untouched and dlat, dlon are zeroed. -/
def move_player (d : ℚ → ℚ → ℚ → ℚ → ℚ) (p : NavPlayer)
    (lat lon : List ℚ) (terrain : List ℤ) : NavPlayer :=
  let ind := chooseInd terrain
  if 0 < ind then
    let next_lat := lat.getD ind.toNat 0
    let next_lon := lon.getD ind.toNat 0
    { p with
      distance_travelled := p.distance_travelled
        + d p.longitude p.latitude next_lon next_lat,
      latitude := next_lat, longitude := next_lon }
  else
    { p with dlat := 0, dlon := 0 }

/-- Result of invoking a decision callback: either a value or a raised
exception. -/
inductive BotResult (α : Type) where
  | ok (val : α)
  | raises
deriving DecidableEq

/-- Instructions a decision callback may return: an optional new desired
heading and speed. -/
structure Instr where
  heading : Option ℚ
  speed : Option ℚ

/-- Kinematic state of a participant as passed to and updated from its
decision callback. -/
structure Kin where
  latitude : ℚ
  longitude : ℚ
  heading : ℚ
  speed : ℚ
deriving DecidableEq

/-- Embeds Engine.execute_player_bot: instructions start as None; in safe
mode the callback runs under try/except so a raise leaves them None, while
in unsafe mode a raise propagates. -/
def execute_player_bot (safe : Bool)
    (run : Kin → ℚ → ℚ → BotResult (Option Instr)) (p : Kin) (t dt : ℚ) :
    BotResult (Option Instr) :=
  if safe then
    match run p t dt with
    | .raises => .ok none
    | .ok i => .ok i
  else run p t dt

/-- Modelled from the spec: Player.execute_bot_instructions lives in
player.py, which is not among the sources; per the spec a participant that
receives no instructions keeps its last heading and speed, and otherwise
adopts the new desired heading and speed the instructions carry. -/
def execute_bot_instructions (p : Kin) (i : Option Instr) : Kin :=
  match i with
  | none => p
  | some instr =>
    { p with heading := instr.heading.getD p.heading,
             speed := instr.speed.getD p.speed }

/-- Embeds Engine.call_player_bots: each player's callback result is applied
through execute_bot_instructions; in safe mode the whole per-player step is
additionally wrapped in try/except so a raise leaves that player untouched,
while in unsafe mode the first raise aborts the loop. -/
def call_player_bots (safe : Bool)
    (bots : ℕ → Kin → ℚ → ℚ → BotResult (Option Instr)) (t dt : ℚ) :
    List (ℕ × Kin) → BotResult (List (ℕ × Kin))
  | [] => .ok []
  | (team, p) :: ps =>
    let inner : BotResult Kin :=
      match execute_player_bot safe (bots team) p t dt with
      | .raises => .raises
      | .ok i => .ok (execute_bot_instructions p i)
    if safe then
      match call_player_bots safe bots t dt ps with
      | .raises => .raises
      | .ok rest =>
          .ok ((team, match inner with
            | .raises => p
            | .ok q => q) :: rest)
    else
      match inner with
      | .raises => .raises
      | .ok q =>
        match call_player_bots safe bots t dt ps with
        | .raises => .raises
        | .ok rest => .ok ((team, q) :: rest)

/-- Safe-mode update of one player entry, as call_player_bots performs it. -/
def safe_update (bots : ℕ → Kin → ℚ → ℚ → BotResult (Option Instr))
    (t dt : ℚ) (q : ℕ × Kin) : ℕ × Kin :=
  (q.1, match execute_player_bot true (bots q.1) q.2 t dt with
    | .raises => q.2
    | .ok i => execute_bot_instructions q.2 i)

/-- One safe-mode tick of the bot invocation loop; by
call_player_bots_safe the raising branch is unreachable. -/
def safe_tick (bots : ℕ → Kin → ℚ → ℚ → BotResult (Option Instr))
    (t dt : ℚ) (ps : List (ℕ × Kin)) : List (ℕ × Kin) :=
  match call_player_bots true bots t dt ps with
  | .ok r => r
  | .raises => ps

/-- A checkpoint as the finish logic of Engine.move_players reads and
writes it. -/
structure CP where
  latitude : ℚ
  longitude : ℚ
  radius : ℚ
  reached : Bool

/-- Per-participant state touched by the checkpoint and arrival section of
Engine.move_players. -/
structure RacePlayer where
  team : ℕ
  latitude : ℚ
  longitude : ℚ
  checkpoints : List CP
  arrived : Bool
  bonus : ℚ

/-- Default player used for out-of-range list reads in statements. -/
def P0 : RacePlayer := ⟨0, 0, 0, [], false, 0⟩

/-- Static context of the finish logic: the haversine kernel
distance_on_surface as an explicit function parameter, the start location
and radius (config.start, the finish of the race) and the score step
(config.score_step). -/
structure FinishEnv where
  dist : ℚ → ℚ → ℚ → ℚ → ℚ
  start_longitude : ℚ
  start_latitude : ℚ
  start_radius : ℚ
  score_step : ℚ

/-- Embeds the checkpoint update of Engine.move_players: each unreached
checkpoint closer than its radius becomes reached (a one-way
transition). -/
def update_checkpoints (env : FinishEnv) (p : RacePlayer) : RacePlayer :=
  { p with checkpoints := p.checkpoints.map (fun c =>
      if c.reached = false ∧
          env.dist p.longitude p.latitude c.longitude c.latitude < c.radius
        then { c with reached := true } else c) }

/-- The arrival condition of Engine.move_players: distance to the
start/finish below its radius, with every checkpoint reached. -/
def finish_cond (env : FinishEnv) (p : RacePlayer) : Prop :=
  env.dist p.longitude p.latitude env.start_longitude env.start_latitude
      < env.start_radius
    ∧ p.checkpoints.all (fun c => c.reached) = true

instance (env : FinishEnv) (p : RacePlayer) : Decidable (finish_cond env p) := by
  unfold finish_cond
  infer_instance

/-- Embeds the arrival block of Engine.move_players: on arrival the player
is flagged, its bonus becomes score_step * len(players_not_arrived) (read
before the removal), its team is removed from players_not_arrived, and its
fastest time becomes min(t, stored). -/
def process_arrival (env : FinishEnv) (t : ℚ) (p : RacePlayer)
    (na : List ℕ) (fast : ℕ → ℚ) : RacePlayer × List ℕ × (ℕ → ℚ) :=
  if finish_cond env p then
    ({ p with arrived := true, bonus := env.score_step * (na.length : ℚ) },
      na.erase p.team,
      fun tm => if tm = p.team then min t (fast tm) else fast tm)
  else (p, na, fast)

/-- Embeds the per-tick loop of Engine.move_players restricted to its
checkpoint and arrival section: the loop skips arrived players (the source
filters them out before iterating; since processing one player never
changes another's arrived flag, the in-place skip is equivalent) and
threads players_not_arrived and fastest_times through the iteration. -/
def tick_finish (env : FinishEnv) (t : ℚ) :
    List RacePlayer → List ℕ → (ℕ → ℚ) →
      List RacePlayer × List ℕ × (ℕ → ℚ)
  | [], na, fast => ([], na, fast)
  | p :: ps, na, fast =>
    if p.arrived = true then
      let r := tick_finish env t ps na fast
      (p :: r.1, r.2)
    else
      let x := process_arrival env t (update_checkpoints env p) na fast
      let r := tick_finish env t ps x.2.1 x.2.2
      (x.1 :: r.1, r.2)

/-- Teams of a player list, in order. -/
def TeamsOf (ps : List RacePlayer) : List ℕ := ps.map (fun p => p.team)

/-- Invariant tying the player list to players_not_arrived: the list has no
duplicates, teams are pairwise distinct, membership in the list coincides
with not having arrived, and every arrived player's bonus is at least
score_step * (current length + 1) - it arrived when the list was strictly
longer. -/
structure RaceInv (step : ℚ) (ps : List RacePlayer) (na : List ℕ) : Prop where
  na_nodup : na.Nodup
  teams_nodup : (TeamsOf ps).Nodup
  mem_iff : ∀ p ∈ ps, (p.arrived = false ↔ p.team ∈ na)
  bonus_lb : ∀ p ∈ ps, p.arrived = true →
    step * ((na.length : ℚ) + 1) ≤ p.bonus

/-- The in-place mutation performed on an arriving player: flag it and set
its finish bonus. -/
def mark_arrived (p : RacePlayer) (b : ℚ) : RacePlayer :=
  { p with arrived := true, bonus := b }

/-- Everything one tick of the finish logic guarantees, given the race
invariant: lengths and teams are stable, players_not_arrived only loses
members, players and fastest times outside the processed teams are
untouched, already-arrived players are untouched (their bonus and fastest
time are set by at most one tick), a newly arrived player's bonus is
bracketed by the not-arrived counts before and after the tick, bonuses of
newly arrived players strictly decrease along the processing order, and the
invariant is preserved. -/
structure TickSpec (env : FinishEnv) (t : ℚ) (ps : List RacePlayer)
    (na : List ℕ) (fast : ℕ → ℚ) : Prop where
  len : (tick_finish env t ps na fast).1.length = ps.length
  teams : TeamsOf (tick_finish env t ps na fast).1 = TeamsOf ps
  sub : (tick_finish env t ps na fast).2.1.Sublist na
  frame : ∀ tm, tm ∉ TeamsOf ps →
    (tick_finish env t ps na fast).2.2 tm = fast tm ∧
    (tm ∈ (tick_finish env t ps na fast).2.1 ↔ tm ∈ na)
  old : ∀ i, (ps.getD i P0).arrived = true →
    (tick_finish env t ps na fast).1.getD i P0 = ps.getD i P0 ∧
    (tick_finish env t ps na fast).2.2 (ps.getD i P0).team
      = fast (ps.getD i P0).team
  fresh : ∀ i, i < ps.length → (ps.getD i P0).arrived = false →
    ((tick_finish env t ps na fast).1.getD i P0).arrived = true →
    ((tick_finish env t ps na fast).1.getD i P0).team
      = (ps.getD i P0).team ∧
    ((tick_finish env t ps na fast).1.getD i P0).bonus
      ≤ env.score_step * (na.length : ℚ) ∧
    env.score_step * (((tick_finish env t ps na fast).2.1.length : ℚ) + 1)
      ≤ ((tick_finish env t ps na fast).1.getD i P0).bonus ∧
    (tick_finish env t ps na fast).2.2 (ps.getD i P0).team
      = min t (fast (ps.getD i P0).team)
  order : ∀ i j, i < j → j < ps.length →
    (ps.getD i P0).arrived = false →
    ((tick_finish env t ps na fast).1.getD i P0).arrived = true →
    (ps.getD j P0).arrived = false →
    ((tick_finish env t ps na fast).1.getD j P0).arrived = true →
    ((tick_finish env t ps na fast).1.getD j P0).bonus
      < ((tick_finish env t ps na fast).1.getD i P0).bonus
  inv : RaceInv env.score_step (tick_finish env t ps na fast).1
    (tick_finish env t ps na fast).2.1

/-- Concrete finish context for witnesses: zero distance kernel, start at
the origin with radius 1, score step 10. -/
def envW : FinishEnv := ⟨fun _ _ _ _ => 0, 0, 0, 1, 10⟩


lemma pymod_eq_fract (a b : ℚ) (hb : b ≠ 0) :
    pymod a b = b * Int.fract (a / b) := by
  unfold pymod Int.fract
  rw [mul_sub, mul_comm b (a / b), div_mul_cancel₀ a hb]

lemma pymod_nonneg (a b : ℚ) (hb : 0 < b) : 0 ≤ pymod a b := by
  rw [pymod_eq_fract a b hb.ne']
  exact mul_nonneg hb.le (Int.fract_nonneg _)

lemma pymod_lt (a b : ℚ) (hb : 0 < b) : pymod a b < b := by
  rw [pymod_eq_fract a b hb.ne']
  calc b * Int.fract (a / b) < b * 1 :=
        mul_lt_mul_of_pos_left (Int.fract_lt_one _) hb
    _ = b := mul_one b

lemma pymod_eq_self (a b : ℚ) (hb : 0 < b) (h0 : 0 ≤ a) (h1 : a < b) :
    pymod a b = a := by
  have hfl : ⌊a / b⌋ = 0 := by
    rw [Int.floor_eq_zero_iff]
    constructor
    · positivity
    · rw [div_lt_one hb]
      exact h1
  unfold pymod
  rw [hfl]
  push_cast
  ring

lemma pymod_eval (a b : ℚ) (k : ℤ) (hb : 0 < b) (h1 : (k : ℚ) * b ≤ a)
    (h2 : a < (k + 1 : ℚ) * b) : pymod a b = a - b * k := by
  have hfl : ⌊a / b⌋ = k := by
    rw [Int.floor_eq_iff]
    constructor
    · rw [le_div_iff₀ hb]; exact h1
    · rw [div_lt_iff₀ hb]; exact_mod_cast h2
  unfold pymod
  rw [hfl]

lemma wrap_fst (lat lon : ℚ) :
    (wrap lat lon).1 = max (min lat (180 - lat)) (-180 - lat) := rfl

lemma wrap_snd (lat lon : ℚ) :
    (wrap lat lon).2 =
      pymod (if 90 < lat ∨ lat < -90 then lon + 180 + 180 else lon + 180) 360
        - 180 := rfl

lemma wrap_fst_id {lat : ℚ} (lon : ℚ) (h1 : -90 ≤ lat) (h2 : lat ≤ 90) :
    (wrap lat lon).1 = lat := by
  rw [wrap_fst, min_eq_left (by linarith), max_eq_left (by linarith)]

lemma wrap_fst_lb {lat : ℚ} (lon : ℚ) (h1 : -270 ≤ lat) (h2 : lat ≤ 270) :
    -90 ≤ (wrap lat lon).1 := by
  rw [wrap_fst, le_max_iff]
  rcases le_total (-90 : ℚ) lat with h | h
  · left
    rw [le_min_iff]
    constructor <;> linarith
  · right
    linarith

lemma wrap_fst_ub {lat : ℚ} (lon : ℚ) (h1 : -270 ≤ lat) (h2 : lat ≤ 270) :
    (wrap lat lon).1 ≤ 90 := by
  rw [wrap_fst, max_le_iff]
  refine ⟨?_, by linarith⟩
  rw [min_le_iff]
  rcases le_total lat 90 with h | h
  · left; exact h
  · right; linarith

lemma wrap_snd_lb (lat lon : ℚ) : -180 ≤ (wrap lat lon).2 := by
  rw [wrap_snd]
  have := pymod_nonneg (if 90 < lat ∨ lat < -90 then lon + 180 + 180
    else lon + 180) 360 (by norm_num)
  linarith

lemma wrap_snd_ub (lat lon : ℚ) : (wrap lat lon).2 < 180 := by
  rw [wrap_snd]
  have := pymod_lt (if 90 < lat ∨ lat < -90 then lon + 180 + 180
    else lon + 180) 360 (by norm_num)
  linarith

lemma wrap_id {lat lon : ℚ} (h1 : -90 ≤ lat) (h2 : lat ≤ 90)
    (h3 : -180 ≤ lon) (h4 : lon < 180) : wrap lat lon = (lat, lon) := by
  rw [Prod.ext_iff]
  refine ⟨wrap_fst_id lon h1 h2, ?_⟩
  rw [wrap_snd, if_neg (by push_neg; constructor <;> linarith)]
  rw [pymod_eq_self (lon + 180) 360 (by norm_num) (by linarith) (by linarith)]
  ring

/-- C3, counterexample: `wrap` is not idempotent on every input; at latitude
300 the reflected latitude is -120, still outside the poles, and a second
application moves it again. -/
theorem c3_counterexample :
    wrap (wrap 300 0).1 (wrap 300 0).2 ≠ wrap 300 0 := by
  have h1 : pymod 360 360 = 0 := by
    have := pymod_eval 360 360 1 (by norm_num) (by norm_num) (by norm_num)
    push_cast at this
    linarith
  have h2 : pymod 180 360 = 180 :=
    pymod_eq_self 180 360 (by norm_num) (by norm_num) (by norm_num)
  have e1 : wrap 300 0 = (-120, -180) := by
    rw [Prod.ext_iff, wrap_fst, wrap_snd, if_pos (by norm_num)]
    norm_num [h1]
  have e2 : wrap (-120 : ℚ) (-180) = (-60, 0) := by
    rw [Prod.ext_iff, wrap_fst, wrap_snd, if_pos (by norm_num)]
    norm_num [h2]
  rw [e1]
  rw [show ((-120 : ℚ), (-180 : ℚ)).1 = (-120 : ℚ) from rfl,
    show ((-120 : ℚ), (-180 : ℚ)).2 = (-180 : ℚ) from rfl, e2]
  norm_num [Prod.ext_iff]

/-- C3 (amended): `wrap` is idempotent on every input whose latitude lies in
[-270, 270] (one reflection then lands in [-90, 90]); outside that band a
single application can leave the latitude beyond a pole, so idempotence
fails (see the counterexample at latitude 300).  For latitudes already in
[-90, 90] the latitude component is returned unchanged, for every
longitude. -/
theorem c3_wrap_idempotent :
    (∀ lat lon : ℚ, -270 ≤ lat → lat ≤ 270 →
        wrap (wrap lat lon).1 (wrap lat lon).2 = wrap lat lon) ∧
    (∀ lat lon : ℚ, -90 ≤ lat → lat ≤ 90 → (wrap lat lon).1 = lat) := by
  constructor
  · intro lat lon h1 h2
    rw [wrap_id (wrap_fst_lb lon h1 h2) (wrap_fst_ub lon h1 h2)
      (wrap_snd_lb lat lon) (wrap_snd_ub lat lon)]
  · intro lat lon h1 h2
    exact wrap_fst_id lon h1 h2

/-- C3 witness: idempotence applied at latitude 200 and the latitude no-op
applied at latitude 45. -/
theorem c3_witness :
    wrap (wrap 200 10).1 (wrap 200 10).2 = wrap 200 10 ∧
      (wrap 45 7).1 = 45 :=
  ⟨c3_wrap_idempotent.1 200 10 (by norm_num) (by norm_num),
    c3_wrap_idempotent.2 45 7 (by norm_num) (by norm_num)⟩

/-- C1, counterexample: the claim asserts `longitude_difference 10 350 = 20`,
but the code keeps the sign of the raw difference `10 - 350` and returns
-20. -/
theorem c1_counterexample : longitude_difference 10 350 ≠ 20 := by
  norm_num [longitude_difference]

/-- C1 (amended): `longitude_difference` returns the shorter of the direct
arc and the complementary arc across the dateline in magnitude, but carries
the sign of the raw difference `lon1 - lon2`; in particular
`longitude_difference 10 350 = -20` and `longitude_difference 350 10 = 20`
(the signs of the two quoted values are swapped relative to the claim). -/
theorem c1_longitude_difference :
    longitude_difference 10 350 = -20 ∧ longitude_difference 350 10 = 20 ∧
    ∀ lon1 lon2 : ℚ, |lon1 - lon2| ≤ 360 →
      |longitude_difference lon1 lon2| =
          min |lon1 - lon2| (360 - |lon1 - lon2|) ∧
      (0 ≤ lon1 - lon2 → 0 ≤ longitude_difference lon1 lon2) ∧
      (lon1 - lon2 ≤ 0 → longitude_difference lon1 lon2 ≤ 0) := by
  refine ⟨by norm_num [longitude_difference],
    by norm_num [longitude_difference], ?_⟩
  intro lon1 lon2 h
  simp only [longitude_difference]
  by_cases hd : 0 ≤ lon1 - lon2
  · have habs : |lon1 - lon2| = lon1 - lon2 := abs_of_nonneg hd
    rw [habs] at h
    rw [if_pos hd, habs]
    have hmin : 0 ≤ min (lon1 - lon2) (360 - (lon1 - lon2)) :=
      le_min hd (by linarith)
    refine ⟨abs_of_nonneg hmin, fun _ => hmin, fun hle => ?_⟩
    have h0 : lon1 - lon2 = 0 := le_antisymm hle hd
    rw [h0]
    norm_num
  · have hneg : lon1 - lon2 < 0 := lt_of_not_ge hd
    have habs : |lon1 - lon2| = -(lon1 - lon2) := abs_of_neg hneg
    rw [habs] at h
    rw [if_neg hd, habs]
    have hmin : 0 ≤ min (-(lon1 - lon2)) (360 - -(lon1 - lon2)) :=
      le_min (by linarith) (by linarith)
    refine ⟨?_, fun h0 => absurd h0 hd, fun _ => by linarith⟩
    rw [abs_neg, abs_of_nonneg hmin]

/-- C1 witness: the magnitude identity of the amended claim evaluated at the
pair (100, -150), whose shorter arc crosses the dateline. -/
theorem c1_witness : |longitude_difference 100 (-150)| = 110 := by
  have h := (c1_longitude_difference.2.2 100 (-150) (by norm_num)).1
  norm_num at h
  exact h

/-- C9, counterexample: at longitude 180 the azimuth produced by
`lon_to_phi` is exactly 2*pi, which is not inside [0, 2*pi). -/
theorem c9_counterexample :
    ¬ (0 ≤ lon_to_phi 180 ∧ lon_to_phi 180 < 2 * Real.pi) := by
  have h : lon_to_phi 180 = 2 * Real.pi := by
    unfold lon_to_phi
    rw [pymod_eq_self 180 360 (by norm_num) (by norm_num) (by norm_num)]
    push_cast
    ring
  rw [h]
  rintro ⟨-, h2⟩
  exact lt_irrefl _ h2

/-- C9 (amended): the azimuth produced by `lon_to_phi` lies in the half-open
interval [pi, 3*pi) for every longitude: the code wraps the longitude into
[0, 360) and then adds the 180 degree offset, so the result in degrees lies
in [180, 540), not [0, 360). -/
theorem c9_lon_to_phi_range (lon : ℚ) :
    Real.pi ≤ lon_to_phi lon ∧ lon_to_phi lon < 3 * Real.pi := by
  have h0 : (0 : ℝ) ≤ ((pymod lon 360 : ℚ) : ℝ) := by
    exact_mod_cast pymod_nonneg lon 360 (by norm_num)
  have h1 : ((pymod lon 360 : ℚ) : ℝ) < 360 := by
    exact_mod_cast pymod_lt lon 360 (by norm_num)
  unfold lon_to_phi
  push_cast
  constructor
  · calc Real.pi = 180 * (Real.pi / 180) := by ring
      _ ≤ (((pymod lon 360 : ℚ) : ℝ) + 180) * (Real.pi / 180) :=
          mul_le_mul_of_nonneg_right (by linarith) (by positivity)
      _ = (((pymod lon 360 : ℚ) : ℝ) + 180) * Real.pi / 180 := by ring
  · calc (((pymod lon 360 : ℚ) : ℝ) + 180) * Real.pi / 180
        = (((pymod lon 360 : ℚ) : ℝ) + 180) * (Real.pi / 180) := by ring
      _ < 540 * (Real.pi / 180) :=
          mul_lt_mul_of_pos_right (by linarith) (by positivity)
      _ = 3 * Real.pi := by ring

/-- C10: for every ship heading vector and nonzero wind vector whose
normalized sum with the heading is nonzero, wind_force returns a
nonnegative scalar multiple of the heading vector, so the effective force
never has a component perpendicular to the heading. -/
theorem c10_wind_force_parallel (ship_vector wind : ℝ × ℝ)
    (hw : wind ≠ (0, 0))
    (hv : (ship_vector.1 + wind.1 / norm2 wind,
        ship_vector.2 + wind.2 / norm2 wind) ≠ (0, 0)) :
    ∃ c : ℝ, 0 ≤ c ∧
      wind_force ship_vector wind = (c * ship_vector.1, c * ship_vector.2) := by
  clear hw hv
  refine ⟨|dot2 ship_vector
      ((ship_vector.1 + wind.1 / norm2 wind) /
          norm2 (ship_vector.1 + wind.1 / norm2 wind,
            ship_vector.2 + wind.2 / norm2 wind),
        (ship_vector.2 + wind.2 / norm2 wind) /
          norm2 (ship_vector.1 + wind.1 / norm2 wind,
            ship_vector.2 + wind.2 / norm2 wind))| * norm2 wind, ?_, rfl⟩
  exact mul_nonneg (abs_nonneg _) (Real.sqrt_nonneg _)

/-- C10 witness: the parallelism statement applied to the heading (1,0) and
the wind (0,2). -/
theorem c10_witness :
    ∃ c : ℝ, 0 ≤ c ∧ wind_force (1, 0) (0, 2) = (c * 1, c * 0) := by
  refine c10_wind_force_parallel (1, 0) (0, 2) ?_ ?_
  · intro hc
    rw [Prod.ext_iff] at hc
    norm_num at hc
  · intro hc
    rw [Prod.ext_iff] at hc
    norm_num at hc

lemma mkWeather_nt (nt : ℕ) (dt : ℚ) (u v : ℕ → ℕ → ℕ → ℚ) :
    (mkWeather nt dt u v).nt = nt := rfl

lemma mkWeather_dt (nt : ℕ) (dt : ℚ) (u v : ℕ → ℕ → ℕ → ℚ) :
    (mkWeather nt dt u v).dt = dt := rfl

lemma truncToInt_of_nonneg {q : ℚ} (h : 0 ≤ q) : truncToInt q = ⌊q⌋ :=
  if_pos h

lemma npIndex_of_bounds {n : ℕ} {i : ℤ} (h0 : 0 ≤ i) (h1 : i < n) :
    npIndex n i = some i.toNat := by
  unfold npIndex
  rw [if_pos ⟨by omega, h1⟩]
  have he : i.emod ↑n = i := Int.emod_eq_of_lt h0 h1
  rw [he]

lemma get_uv_eq_some (w : Weather) (lat lon t : ℚ) (kt kv ku : ℕ)
    (h1 : npIndex w.nt ((truncToInt (t / w.dt)).emod w.nt) = some kt)
    (h2 : npIndex w.ny (truncToInt ((lat + 90) / w.dv)) = some kv)
    (h3 : npIndex w.nx (truncToInt ((lon + 180) / w.du)) = some ku) :
    w.get_uv lat lon t = some (w.u kt kv ku, w.v kt kv ku) := by
  simp only [Weather.get_uv]
  rw [h1, h2, h3]

lemma get_uv_none_of_iv (w : Weather) (lat lon t : ℚ)
    (h : npIndex w.ny (truncToInt ((lat + 90) / w.dv)) = none) :
    w.get_uv lat lon t = none := by
  simp only [Weather.get_uv]
  rw [h]
  cases npIndex w.nt ((truncToInt (t / w.dt)).emod w.nt) <;>
    cases npIndex w.nx (truncToInt ((lon + 180) / w.du)) <;> rfl

/-- C4, counterexample: at latitude exactly 90 the row index computed by
Weather.get_uv is (90 + 90) / dv = 128, equal to the row count ny = 128, so
the spatial index is out of bounds (nothing clamps it) and the lookup
raises an IndexError instead of returning a pair. -/
theorem c4_counterexample :
    (mkWeather 1 12 (fun _ _ _ => 0) (fun _ _ _ => 0)).get_uv 90 0 0
      = none := by
  apply get_uv_none_of_iv
  show npIndex 128 (truncToInt ((90 + 90 : ℚ) / ((90 - -90 : ℚ) / 128)))
    = none
  rw [truncToInt_of_nonneg (by norm_num),
    show ((90 + 90 : ℚ) / ((90 - -90 : ℚ) / 128)) = ((128 : ℤ) : ℚ) by
      norm_num,
    Int.floor_intCast]
  unfold npIndex
  rw [if_neg (by omega)]

/-- C4 (amended): Weather.get_uv is total over latitudes in the half-open
band [-90, 90) and longitudes in [-180, 180), for every time t (negative or
beyond the race duration) since the time index is reduced modulo nt; the
latitude endpoint 90 itself must be excluded because the code never clamps
the spatial indices (see the counterexample). -/
theorem c4_get_uv_total (nt : ℕ) (dt : ℚ) (u v : ℕ → ℕ → ℕ → ℚ)
    (lat lon t : ℚ) (hnt : 0 < nt) (hdt : 0 < dt) (h1 : -90 ≤ lat)
    (h2 : lat < 90) (h3 : -180 ≤ lon) (h4 : lon < 180) :
    ∃ p, (mkWeather nt dt u v).get_uv lat lon t = some p := by
  clear hdt
  have hdv : (0 : ℚ) < (90 - -90 : ℚ) / 128 := by norm_num
  have hdu : (0 : ℚ) < (180 - -180 : ℚ) / 256 := by norm_num
  have hq0 : (0 : ℚ) ≤ (lat + 90) / ((90 - -90 : ℚ) / 128) :=
    div_nonneg (by linarith) hdv.le
  have hq1 : (lat + 90) / ((90 - -90 : ℚ) / 128) < 128 := by
    rw [div_lt_iff₀ hdv]
    linarith
  have hr0 : (0 : ℚ) ≤ (lon + 180) / ((180 - -180 : ℚ) / 256) :=
    div_nonneg (by linarith) hdu.le
  have hr1 : (lon + 180) / ((180 - -180 : ℚ) / 256) < 256 := by
    rw [div_lt_iff₀ hdu]
    linarith
  have hiv : npIndex 128
      (truncToInt ((lat + 90) / ((90 - -90 : ℚ) / 128)))
        = some (truncToInt ((lat + 90) / ((90 - -90 : ℚ) / 128))).toNat := by
    rw [truncToInt_of_nonneg hq0]
    exact npIndex_of_bounds (Int.floor_nonneg.mpr hq0)
      (Int.floor_lt.mpr (by exact_mod_cast hq1))
  have hiu : npIndex 256
      (truncToInt ((lon + 180) / ((180 - -180 : ℚ) / 256)))
        = some (truncToInt ((lon + 180) / ((180 - -180 : ℚ) / 256))).toNat := by
    rw [truncToInt_of_nonneg hr0]
    exact npIndex_of_bounds (Int.floor_nonneg.mpr hr0)
      (Int.floor_lt.mpr (by exact_mod_cast hr1))
  have hnt' : (0 : ℤ) < (nt : ℤ) := by exact_mod_cast hnt
  have hit : npIndex nt ((truncToInt (t / dt)).emod nt)
      = some ((truncToInt (t / dt)).emod nt).toNat :=
    npIndex_of_bounds (Int.emod_nonneg _ hnt'.ne') (Int.emod_lt_of_pos _ hnt')
  exact ⟨_, get_uv_eq_some (mkWeather nt dt u v) lat lon t _ _ _ hit hiv hiu⟩

/-- C4 witness: totality applied at latitude 0, longitude 0, time 0, on a
two-bucket field. -/
theorem c4_witness :
    ∃ p, (mkWeather 2 12 (fun _ _ _ => 1) (fun _ _ _ => 2)).get_uv 0 0 0
      = some p :=
  c4_get_uv_total 2 12 _ _ 0 0 0 (by norm_num) (by norm_num) (by norm_num)
    (by norm_num) (by norm_num) (by norm_num)

/-- C5, counterexample: with nt = 2 buckets of dt = 12 hours the race
duration is 24 hours, yet at t = -6 the truncated-toward-zero time index is
0 while at t = -6 + 24 = 18 it is 1, so the lookup is not cyclic for
negative times (truncation toward zero is not shift-invariant). -/
theorem c5_counterexample :
    weatherC5.get_uv 0 0 (-6) ≠ weatherC5.get_uv 0 0 (-6 + 2 * 12) := by
  have htr1 : truncToInt ((-6 : ℚ) / 12) = 0 := by
    rw [truncToInt, if_neg (by norm_num)]
    rw [show ⌊-(-6 / 12 : ℚ)⌋ = 0 from Int.floor_eq_zero_iff.mpr
      (by rw [Set.mem_Ico]; constructor <;> norm_num)]
    norm_num
  have htr2 : truncToInt ((-6 + 2 * 12 : ℚ) / 12) = 1 := by
    rw [truncToInt_of_nonneg (by norm_num)]
    rw [Int.floor_eq_iff]
    constructor <;> norm_num
  have hiv : npIndex 128
      (truncToInt ((0 + 90 : ℚ) / ((90 - -90 : ℚ) / 128))) = some 64 := by
    rw [truncToInt_of_nonneg (by norm_num),
      show ((0 + 90 : ℚ) / ((90 - -90 : ℚ) / 128)) = ((64 : ℤ) : ℚ) by
        norm_num,
      Int.floor_intCast]
    exact npIndex_of_bounds (by omega) (by omega)
  have hiu : npIndex 256
      (truncToInt ((0 + 180 : ℚ) / ((180 - -180 : ℚ) / 256))) = some 128 := by
    rw [truncToInt_of_nonneg (by norm_num),
      show ((0 + 180 : ℚ) / ((180 - -180 : ℚ) / 256)) = ((128 : ℤ) : ℚ) by
        norm_num,
      Int.floor_intCast]
    exact npIndex_of_bounds (by omega) (by omega)
  have e1 : weatherC5.get_uv 0 0 (-6) = some (0, 0) := by
    apply get_uv_eq_some weatherC5 0 0 (-6) 0 64 128 _ hiv hiu
    show npIndex 2 ((truncToInt ((-6 : ℚ) / 12)).emod 2) = some 0
    rw [htr1, show ((0 : ℤ)).emod 2 = 0 by decide]
    exact npIndex_of_bounds (by omega) (by omega)
  have e2 : weatherC5.get_uv 0 0 (-6 + 2 * 12) = some (1, 0) := by
    apply get_uv_eq_some weatherC5 0 0 (-6 + 2 * 12) 1 64 128 _ hiv hiu
    show npIndex 2 ((truncToInt ((-6 + 2 * 12 : ℚ) / 12)).emod 2) = some 1
    rw [htr2, show ((1 : ℤ)).emod 2 = 1 by decide]
    exact npIndex_of_bounds (by omega) (by omega)
  rw [e1, e2]
  intro hc
  rw [Option.some_inj, Prod.ext_iff] at hc
  norm_num at hc

/-- C5 (amended): Weather.get_uv is cyclic with period nt * dt (the number
of time buckets times the weather update interval) for all nonnegative
times: get_uv lat lon t = get_uv lat lon (t + nt * dt) whenever 0 ≤ t; for
negative t the truncation toward zero of the time quotient breaks the
periodicity (see the counterexample). -/
theorem c5_get_uv_cyclic (nt : ℕ) (dt : ℚ) (u v : ℕ → ℕ → ℕ → ℚ)
    (lat lon t : ℚ) (hdt : 0 < dt) (ht : 0 ≤ t) :
    (mkWeather nt dt u v).get_uv lat lon t =
      (mkWeather nt dt u v).get_uv lat lon (t + nt * dt) := by
  have hq0 : (0 : ℚ) ≤ t / dt := div_nonneg ht hdt.le
  have harg : (t + nt * dt) / dt = t / dt + (nt : ℚ) := by
    rw [add_div, mul_div_assoc, div_self hdt.ne', mul_one]
  have htr : truncToInt ((t + nt * dt) / dt) = truncToInt (t / dt) + nt := by
    rw [harg, truncToInt_of_nonneg (by positivity),
      truncToInt_of_nonneg hq0]
    exact_mod_cast Int.floor_add_nat (t / dt) nt
  have hemod : (truncToInt ((t + nt * dt) / dt)).emod nt
      = (truncToInt (t / dt)).emod nt := by
    rw [htr]
    show (truncToInt (t / dt) + (nt : ℤ)) % (nt : ℤ)
      = truncToInt (t / dt) % (nt : ℤ)
    rw [show truncToInt (t / dt) + (nt : ℤ)
        = truncToInt (t / dt) + (nt : ℤ) * 1 by ring,
      Int.add_mul_emod_self_left]
  simp only [Weather.get_uv, mkWeather_nt, mkWeather_dt]
  rw [hemod]

/-- C5 witness: cyclicity applied at time 6 on a two-bucket field of
12-hour buckets. -/
theorem c5_witness :
    (mkWeather 2 12 (fun kt _ _ => (kt : ℚ)) (fun _ _ _ => 0)).get_uv 0 0 6
      = (mkWeather 2 12 (fun kt _ _ => (kt : ℚ))
          (fun _ _ _ => 0)).get_uv 0 0 (6 + 2 * 12) :=
  c5_get_uv_cyclic 2 12 _ _ 0 0 6 (by norm_num) (by norm_num)

/-- C2, failing input: one arrived player at latitude 50 listed before one
active player at latitude 0.  The single active player has enumeration
index 0, so the wind pair used to advance it is sample 0 - the wind at the
ARRIVED player's latitude 50 - which differs from the wind at its own
latitude 0: the indices into the full-collection sample arrays are
misaligned with the filtered enumeration. -/
theorem c2_wind_misalignment :
    active_players [⟨50, 0, true⟩, ⟨0, 0, false⟩] = [⟨0, 0, false⟩] ∧
    (sampled_winds weatherC2 [⟨50, 0, true⟩, ⟨0, 0, false⟩] 0)[0]?
      = some (weatherC2.get_uv 50 0 0) ∧
    weatherC2.get_uv 50 0 0 ≠ weatherC2.get_uv 0 0 0 := by
  refine ⟨rfl, rfl, ?_⟩
  have hit : npIndex 1 ((truncToInt ((0 : ℚ) / 12)).emod 1) = some 0 := by
    rw [show truncToInt ((0 : ℚ) / 12) = 0 by
        rw [truncToInt_of_nonneg (by norm_num)]
        norm_num,
      show ((0 : ℤ)).emod 1 = 0 by decide]
    exact npIndex_of_bounds (by omega) (by omega)
  have hiu : npIndex 256
      (truncToInt ((0 + 180 : ℚ) / ((180 - -180 : ℚ) / 256))) = some 128 := by
    rw [truncToInt_of_nonneg (by norm_num),
      show ((0 + 180 : ℚ) / ((180 - -180 : ℚ) / 256)) = ((128 : ℤ) : ℚ) by
        norm_num,
      Int.floor_intCast]
    exact npIndex_of_bounds (by omega) (by omega)
  have hiv50 : npIndex 128
      (truncToInt ((50 + 90 : ℚ) / ((90 - -90 : ℚ) / 128))) = some 99 := by
    rw [truncToInt_of_nonneg (by norm_num),
      show ⌊(50 + 90 : ℚ) / ((90 - -90 : ℚ) / 128)⌋ = 99 from
        Int.floor_eq_iff.mpr (by constructor <;> norm_num)]
    exact npIndex_of_bounds (by omega) (by omega)
  have hiv0 : npIndex 128
      (truncToInt ((0 + 90 : ℚ) / ((90 - -90 : ℚ) / 128))) = some 64 := by
    rw [truncToInt_of_nonneg (by norm_num),
      show ((0 + 90 : ℚ) / ((90 - -90 : ℚ) / 128)) = ((64 : ℤ) : ℚ) by
        norm_num,
      Int.floor_intCast]
    exact npIndex_of_bounds (by omega) (by omega)
  have e1 : weatherC2.get_uv 50 0 0 = some (99, 0) :=
    get_uv_eq_some weatherC2 50 0 0 0 99 128 hit hiv50 hiu
  have e2 : weatherC2.get_uv 0 0 0 = some (64, 0) :=
    get_uv_eq_some weatherC2 0 0 0 0 64 128 hit hiv0 hiu
  rw [e1, e2]
  intro hc
  rw [Option.some_inj, Prod.ext_iff] at hc
  norm_num at hc

/-- C6: when the chosen index is not positive (the candidate path is
blocked by land at once) the player's latitude, longitude and accumulated
distance are all unchanged by the tick; otherwise the player moves to the
path point just before the first land point (the last sea point), or to the
final path point when no land is met, and exactly the distance
d(old, new) - the haversine distance in the engine - is added to its
total. -/
theorem c6_move_player (d : ℚ → ℚ → ℚ → ℚ → ℚ) (p : NavPlayer)
    (lat lon : List ℚ) (terrain : List ℤ) :
    (chooseInd terrain ≤ 0 →
      (move_player d p lat lon terrain).latitude = p.latitude ∧
      (move_player d p lat lon terrain).longitude = p.longitude ∧
      (move_player d p lat lon terrain).distance_travelled
        = p.distance_travelled) ∧
    (0 < chooseInd terrain →
      ∃ k : ℕ, (k : ℤ) = chooseInd terrain ∧
        (terrain.findIdx? (fun x => x == 0) = some (k + 1) ∨
          (terrain.findIdx? (fun x => x == 0) = none ∧
            k + 1 = terrain.length)) ∧
        (move_player d p lat lon terrain).latitude = lat.getD k 0 ∧
        (move_player d p lat lon terrain).longitude = lon.getD k 0 ∧
        (move_player d p lat lon terrain).distance_travelled
          = p.distance_travelled
            + d p.longitude p.latitude (lon.getD k 0) (lat.getD k 0)) := by
  constructor
  · intro h
    unfold move_player
    rw [if_neg (not_lt.mpr h)]
    exact ⟨rfl, rfl, rfl⟩
  · intro h
    refine ⟨(chooseInd terrain).toNat, Int.toNat_of_nonneg h.le, ?_, ?_⟩
    · rcases hf : terrain.findIdx? (fun x => x == 0) with _ | i
      · right
        refine ⟨rfl, ?_⟩
        have hc : chooseInd terrain = (terrain.length : ℤ) - 1 := by
          unfold chooseInd
          rw [hf]
        rw [hc] at h
        rw [hc]
        omega
      · left
        have hc : chooseInd terrain = max ((i : ℤ) - 1) 0 := by
          unfold chooseInd
          rw [hf]
        rw [hc] at h
        have hi : 0 < (i : ℤ) - 1 := by
          rcases lt_max_iff.mp h with h' | h'
          · exact h'
          · exact absurd h' (lt_irrefl 0)
        have hm : max ((i : ℤ) - 1) 0 = (i : ℤ) - 1 := max_eq_left hi.le
        rw [hc, hm]
        congr 1
        omega
    · unfold move_player
      rw [if_pos h]
      exact ⟨rfl, rfl, rfl⟩

/-- C6 witness: a path whose third point is the first land point moves the
player to the second point, and a path blocked at its first point leaves
the latitude unchanged. -/
theorem c6_witness :
    (move_player (fun _ _ _ _ => 0) ⟨3, 4, 5, 0, 0⟩ [1, 2, 9] [4, 5, 6]
        [1, 1, 0]).latitude = 2 ∧
    (move_player (fun _ _ _ _ => 0) ⟨3, 4, 5, 0, 0⟩ [1, 2, 9] [4, 5, 6]
        [0, 1, 1]).latitude = 3 := by
  constructor
  · obtain ⟨k, hk, -, hlat, -, -⟩ :=
      (c6_move_player (fun _ _ _ _ => 0) ⟨3, 4, 5, 0, 0⟩ [1, 2, 9] [4, 5, 6]
        [1, 1, 0]).2 (by decide)
    have hc : chooseInd [1, 1, 0] = 1 := by decide
    rw [hc] at hk
    have hk1 : k = 1 := by exact_mod_cast hk
    rw [hlat, hk1]
    rfl
  · exact ((c6_move_player (fun _ _ _ _ => 0) ⟨3, 4, 5, 0, 0⟩ [1, 2, 9]
      [4, 5, 6] [0, 1, 1]).1 (by decide)).1

lemma call_player_bots_safe (bots : ℕ → Kin → ℚ → ℚ → BotResult (Option Instr))
    (t dt : ℚ) (ps : List (ℕ × Kin)) :
    call_player_bots true bots t dt ps
      = .ok (ps.map (safe_update bots t dt)) := by
  induction ps with
  | nil => rfl
  | cons q ps ih =>
    obtain ⟨team, p⟩ := q
    simp only [call_player_bots, ih, List.map_cons]
    cases hx : execute_player_bot true (bots team) p t dt <;>
      simp [safe_update, hx]

lemma safe_tick_eq (bots : ℕ → Kin → ℚ → ℚ → BotResult (Option Instr))
    (t dt : ℚ) (ps : List (ℕ × Kin)) :
    safe_tick bots t dt ps = ps.map (safe_update bots t dt) := by
  unfold safe_tick
  rw [call_player_bots_safe]

/-- C8: in safe mode, a participant whose decision callback raises on every
invocation receives no instructions (execute_player_bot yields ok none),
the invocation loop never aborts (call_player_bots always returns ok), and
the participant's whole entry - its heading and speed in particular - is
unchanged after every number of ticks. -/
theorem c8_safe_mode (bots : ℕ → Kin → ℚ → ℚ → BotResult (Option Instr))
    (t dt : ℚ) (team : ℕ)
    (hraise : ∀ p t' dt', bots team p t' dt' = .raises) :
    (∀ p t' dt', execute_player_bot true (bots team) p t' dt' = .ok none) ∧
    (∀ ps, ∃ r, call_player_bots true bots t dt ps = .ok r) ∧
    (∀ n : ℕ, ∀ ps : List (ℕ × Kin), ∀ i : ℕ, ∀ p0 : ℕ × Kin,
      ps[i]? = some p0 → p0.1 = team →
      ((safe_tick bots t dt)^[n] ps)[i]? = some p0) := by
  have hexec : ∀ p t' dt',
      execute_player_bot true (bots team) p t' dt' = .ok none := by
    intro p t' dt'
    simp [execute_player_bot, hraise]
  refine ⟨hexec, fun ps => ⟨_, call_player_bots_safe bots t dt ps⟩, ?_⟩
  intro n
  induction n with
  | zero =>
    intro ps i p0 h _
    simpa using h
  | succ n ih =>
    intro ps i p0 h hteam
    rw [Function.iterate_succ_apply]
    apply ih (safe_tick bots t dt ps) i p0 _ hteam
    rw [safe_tick_eq, List.getElem?_map, h]
    have hfix : safe_update bots t dt p0 = p0 := by
      obtain ⟨tm, p⟩ := p0
      have htm : tm = team := hteam
      unfold safe_update
      rw [htm]
      rw [show execute_player_bot true (bots team) p t dt = .ok none from
        hexec p t dt]
      rfl
    simp [hfix]

/-- C8 witness: a callback that always raises, run for three safe-mode
ticks over a single-player collection, leaves the player entry intact. -/
theorem c8_witness :
    ((safe_tick (fun _ _ _ _ => BotResult.raises) 1 1)^[3]
        [(0, ⟨7, 8, 9, 11⟩)])[0]? = some (0, ⟨7, 8, 9, 11⟩) :=
  (c8_safe_mode (fun _ _ _ _ => BotResult.raises) 1 1 0
    (fun _ _ _ => rfl)).2.2 3 [(0, ⟨7, 8, 9, 11⟩)] 0 (0, ⟨7, 8, 9, 11⟩)
    rfl rfl

lemma update_checkpoints_team (env : FinishEnv) (p : RacePlayer) :
    (update_checkpoints env p).team = p.team := rfl

lemma update_checkpoints_arrived (env : FinishEnv) (p : RacePlayer) :
    (update_checkpoints env p).arrived = p.arrived := rfl

lemma mark_arrived_team (p : RacePlayer) (b : ℚ) :
    (mark_arrived p b).team = p.team := rfl

lemma mark_arrived_arrived (p : RacePlayer) (b : ℚ) :
    (mark_arrived p b).arrived = true := rfl

lemma mark_arrived_bonus (p : RacePlayer) (b : ℚ) :
    (mark_arrived p b).bonus = b := rfl

lemma process_arrival_pos {env : FinishEnv} {t : ℚ} {p : RacePlayer}
    {na : List ℕ} {fast : ℕ → ℚ} (h : finish_cond env p) :
    process_arrival env t p na fast
      = (mark_arrived p (env.score_step * (na.length : ℚ)),
          na.erase p.team,
          fun tm => if tm = p.team then min t (fast tm) else fast tm) := by
  unfold process_arrival mark_arrived
  rw [if_pos h]

lemma process_arrival_neg {env : FinishEnv} {t : ℚ} {p : RacePlayer}
    {na : List ℕ} {fast : ℕ → ℚ} (h : ¬ finish_cond env p) :
    process_arrival env t p na fast = (p, na, fast) := by
  unfold process_arrival
  rw [if_neg h]

lemma tick_finish_nil (env : FinishEnv) (t : ℚ) (na : List ℕ)
    (fast : ℕ → ℚ) : tick_finish env t [] na fast = ([], na, fast) := rfl

lemma tick_finish_cons_arrived (env : FinishEnv) (t : ℚ) {p : RacePlayer}
    (ps : List RacePlayer) (na : List ℕ) (fast : ℕ → ℚ)
    (hp : p.arrived = true) :
    tick_finish env t (p :: ps) na fast
      = (p :: (tick_finish env t ps na fast).1,
          (tick_finish env t ps na fast).2) := by
  simp [tick_finish, hp]

lemma tick_finish_cons_active (env : FinishEnv) (t : ℚ) {p : RacePlayer}
    (ps : List RacePlayer) (na : List ℕ) (fast : ℕ → ℚ)
    (hp : p.arrived = false) :
    tick_finish env t (p :: ps) na fast
      = ((process_arrival env t (update_checkpoints env p) na fast).1 ::
          (tick_finish env t ps
            (process_arrival env t (update_checkpoints env p) na fast).2.1
            (process_arrival env t (update_checkpoints env p) na fast).2.2).1,
          (tick_finish env t ps
            (process_arrival env t (update_checkpoints env p) na fast).2.1
            (process_arrival env t (update_checkpoints env p) na fast).2.2).2) := by
  simp [tick_finish, hp]

lemma TeamsOf_cons (p : RacePlayer) (ps : List RacePlayer) :
    TeamsOf (p :: ps) = p.team :: TeamsOf ps := rfl

lemma RaceInv.tail {step : ℚ} {p : RacePlayer} {ps : List RacePlayer}
    {na : List ℕ} (h : RaceInv step (p :: ps) na) : RaceInv step ps na :=
  ⟨h.na_nodup, (List.nodup_cons.mp h.teams_nodup).2,
    fun q hq => h.mem_iff q (List.mem_cons_of_mem _ hq),
    fun q hq ha => h.bonus_lb q (List.mem_cons_of_mem _ hq) ha⟩

lemma getD_mem {ps : List RacePlayer} {i : ℕ} (h : i < ps.length) :
    ps.getD i P0 ∈ ps := by
  rw [List.getD_eq_getElem ps P0 h]
  exact List.getElem_mem h

lemma step_mul_le {step : ℚ} (hstep : 0 ≤ step) {k n : ℕ} (h : k ≤ n) :
    step * (k : ℚ) ≤ step * (n : ℚ) :=
  mul_le_mul_of_nonneg_left (by exact_mod_cast h) hstep

lemma step_mul_lt {step : ℚ} (hstep : 0 < step) {k n : ℕ} (h : k < n) :
    step * (k : ℚ) < step * (n : ℚ) :=
  mul_lt_mul_of_pos_left (by exact_mod_cast h) hstep

lemma step_mul_succ_le {step : ℚ} (hstep : 0 < step) {k n : ℕ}
    (h : k + 1 ≤ n) : step * ((k : ℚ) + 1) ≤ step * (n : ℚ) := by
  have hc : ((k : ℚ) + 1) ≤ (n : ℚ) := by exact_mod_cast h
  exact mul_le_mul_of_nonneg_left hc hstep.le

lemma step_mul_succ_le_succ {step : ℚ} (hstep : 0 ≤ step) {k n : ℕ}
    (h : k ≤ n) : step * ((k : ℚ) + 1) ≤ step * ((n : ℚ) + 1) := by
  have hc : ((k : ℚ) + 1) ≤ ((n : ℚ) + 1) := by exact_mod_cast Nat.succ_le_succ h
  exact mul_le_mul_of_nonneg_left hc hstep

lemma tick_spec (env : FinishEnv) (t : ℚ) (hstep : 0 < env.score_step)
    (ps : List RacePlayer) : ∀ (na : List ℕ) (fast : ℕ → ℚ),
      RaceInv env.score_step ps na → TickSpec env t ps na fast := by
  induction ps with
  | nil =>
    intro na fast hinv
    refine ⟨rfl, rfl, List.Sublist.refl na, fun tm _ => ⟨rfl, Iff.rfl⟩,
      fun i _ => ⟨rfl, rfl⟩, fun i hi => absurd hi (Nat.not_lt_zero i),
      fun i j _ hj => absurd hj (Nat.not_lt_zero j),
      ⟨hinv.na_nodup, List.nodup_nil,
        fun q hq => absurd hq (List.not_mem_nil q),
        fun q hq => absurd hq (List.not_mem_nil q)⟩⟩
  | cons p ps ih =>
    intro na fast hinv
    have hteams := hinv.teams_nodup
    rw [TeamsOf_cons] at hteams
    obtain ⟨hpnotin, htailnodup⟩ := List.nodup_cons.mp hteams
    by_cases hp : p.arrived = true
    · -- the loop skips an already arrived head
      have heq := tick_finish_cons_arrived env t ps na fast hp
      have heq1 : (tick_finish env t (p :: ps) na fast).1
          = p :: (tick_finish env t ps na fast).1 := by rw [heq]
      have heq2 : (tick_finish env t (p :: ps) na fast).2.1
          = (tick_finish env t ps na fast).2.1 := by rw [heq]
      have heq3 : (tick_finish env t (p :: ps) na fast).2.2
          = (tick_finish env t ps na fast).2.2 := by rw [heq]
      have htail := ih na fast hinv.tail
      have hpna : p.team ∉ na := by
        intro hmem
        have hfalse := (hinv.mem_iff p (List.mem_cons_self p ps)).mpr hmem
        rw [hp] at hfalse
        exact Bool.noConfusion hfalse
      refine ⟨?_, ?_, ?_, ?_, ?_, ?_, ?_, ?_⟩
      · rw [heq1]
        simp [htail.len]
      · rw [heq1, TeamsOf_cons, TeamsOf_cons, htail.teams]
      · rw [heq2]
        exact htail.sub
      · intro tm htm
        have htm2 : tm ∉ TeamsOf ps := fun hm =>
          htm (by rw [TeamsOf_cons]; exact List.mem_cons_of_mem _ hm)
        rw [heq2, heq3]
        exact htail.frame tm htm2
      · intro i h
        cases i with
        | zero =>
          refine ⟨?_, ?_⟩
          · rw [heq1]
            simp
          · rw [heq3]
            simp only [List.getD_cons_zero]
            exact (htail.frame p.team hpnotin).1
        | succ i =>
          simp only [List.getD_cons_succ] at h ⊢
          rw [heq1, heq3]
          simp only [List.getD_cons_succ]
          exact htail.old i h
      · intro i hi hb ha
        cases i with
        | zero =>
          simp only [List.getD_cons_zero] at hb
          rw [hp] at hb
          exact Bool.noConfusion hb
        | succ i =>
          simp only [List.getD_cons_succ] at hb
          rw [heq1] at ha
          simp only [List.getD_cons_succ] at ha
          have hi' : i < ps.length := by
            simp only [List.length_cons] at hi
            omega
          rw [heq1, heq2, heq3]
          simp only [List.getD_cons_succ]
          exact htail.fresh i hi' hb ha
      · intro i j hij hj hbi hai hbj haj
        cases i with
        | zero =>
          simp only [List.getD_cons_zero] at hbi
          rw [hp] at hbi
          exact Bool.noConfusion hbi
        | succ i =>
          cases j with
          | zero => exact absurd hij (by omega)
          | succ j =>
            simp only [List.getD_cons_succ] at hbi hbj
            rw [heq1] at hai haj
            simp only [List.getD_cons_succ] at hai haj
            have hj' : j < ps.length := by
              simp only [List.length_cons] at hj
              omega
            rw [heq1]
            simp only [List.getD_cons_succ]
            exact htail.order i j (by omega) hj' hbi hai hbj haj
      · refine ⟨?_, ?_, ?_, ?_⟩
        · rw [heq2]
          exact htail.inv.na_nodup
        · rw [heq1, TeamsOf_cons]
          refine List.nodup_cons.mpr ⟨?_, htail.inv.teams_nodup⟩
          rw [htail.teams]
          exact hpnotin
        · intro q hq
          rw [heq1] at hq
          rw [heq2]
          rcases List.mem_cons.mp hq with hq1 | hq2
          · rw [hq1]
            constructor
            · intro hfalse
              rw [hp] at hfalse
              exact Bool.noConfusion hfalse
            · intro hmem
              exact absurd ((htail.frame p.team hpnotin).2.mp hmem) hpna
          · exact htail.inv.mem_iff q hq2
        · intro q hq ha
          rw [heq1] at hq
          rw [heq2]
          rcases List.mem_cons.mp hq with hq1 | hq2
          · rw [hq1]
            have hlb := hinv.bonus_lb p (List.mem_cons_self p ps) hp
            exact le_trans
              (step_mul_succ_le_succ hstep.le htail.sub.length_le) hlb
          · exact htail.inv.bonus_lb q hq2 ha
    · -- active head
      have hpf : p.arrived = false := by
        cases hA : p.arrived with
        | false => rfl
        | true => exact absurd hA hp
      by_cases hcond : finish_cond env (update_checkpoints env p)
      · -- the head arrives this tick
        have hpin : p.team ∈ na :=
          (hinv.mem_iff p (List.mem_cons_self p ps)).mp hpf
        have hel : (na.erase p.team).length = na.length - 1 :=
          List.length_erase_of_mem hpin
        have hlen1 : 0 < na.length := List.length_pos_of_mem hpin
        have heq := tick_finish_cons_active env t ps na fast hpf
        rw [process_arrival_pos hcond, update_checkpoints_team] at heq
        have heq1 : (tick_finish env t (p :: ps) na fast).1
            = mark_arrived (update_checkpoints env p)
                (env.score_step * (na.length : ℚ)) ::
              (tick_finish env t ps (na.erase p.team)
                (fun tm => if tm = p.team then min t (fast tm) else fast tm)).1 := by
          rw [heq]
        have heq2 : (tick_finish env t (p :: ps) na fast).2.1
            = (tick_finish env t ps (na.erase p.team)
                (fun tm => if tm = p.team then min t (fast tm) else fast tm)).2.1 := by
          rw [heq]
        have heq3 : (tick_finish env t (p :: ps) na fast).2.2
            = (tick_finish env t ps (na.erase p.team)
                (fun tm => if tm = p.team then min t (fast tm) else fast tm)).2.2 := by
          rw [heq]
        have tinv : RaceInv env.score_step ps (na.erase p.team) := by
          refine ⟨hinv.na_nodup.erase p.team, htailnodup, ?_, ?_⟩
          · intro q1 hq1
            have hne : q1.team ≠ p.team := by
              intro hEq
              apply hpnotin
              rw [← hEq]
              exact List.mem_map_of_mem _ hq1
            rw [hinv.na_nodup.mem_erase_iff]
            constructor
            · intro hf
              exact ⟨hne,
                (hinv.mem_iff q1 (List.mem_cons_of_mem _ hq1)).mp hf⟩
            · intro hm
              exact (hinv.mem_iff q1 (List.mem_cons_of_mem _ hq1)).mpr hm.2
          · intro q1 hq1 ha
            have hlb := hinv.bonus_lb q1 (List.mem_cons_of_mem _ hq1) ha
            exact le_trans (step_mul_succ_le_succ hstep.le
              (List.erase_sublist p.team na).length_le) hlb
        have htail := ih (na.erase p.team)
          (fun tm => if tm = p.team then min t (fast tm) else fast tm) tinv
        have hrle := htail.sub.length_le
        rw [hel] at hrle
        refine ⟨?_, ?_, ?_, ?_, ?_, ?_, ?_, ?_⟩
        · rw [heq1]
          simp [htail.len]
        · rw [heq1, TeamsOf_cons, TeamsOf_cons, htail.teams,
          mark_arrived_team, update_checkpoints_team]
        · rw [heq2]
          exact htail.sub.trans (List.erase_sublist p.team na)
        · intro tm htm
          have htm1 : tm ≠ p.team := fun hEq =>
            htm (by rw [TeamsOf_cons, hEq]; exact List.mem_cons_self _ _)
          have htm2 : tm ∉ TeamsOf ps := fun hm =>
            htm (by rw [TeamsOf_cons]; exact List.mem_cons_of_mem _ hm)
          rw [heq2, heq3]
          have hfr := htail.frame tm htm2
          constructor
          · rw [hfr.1, if_neg htm1]
          · rw [hfr.2, hinv.na_nodup.mem_erase_iff]
            exact ⟨fun h => h.2, fun h => ⟨htm1, h⟩⟩
        · intro i h
          cases i with
          | zero =>
            simp only [List.getD_cons_zero] at h
            rw [hpf] at h
            exact Bool.noConfusion h
          | succ i =>
            simp only [List.getD_cons_succ] at h ⊢
            rw [heq1, heq3]
            simp only [List.getD_cons_succ]
            by_cases hi : i < ps.length
            · have hq1 := getD_mem hi
              have hne : (ps.getD i P0).team ≠ p.team := fun hEq =>
                hpnotin (hEq ▸ List.mem_map_of_mem _ hq1)
              have ho := htail.old i h
              refine ⟨ho.1, ?_⟩
              rw [ho.2, if_neg hne]
            · have hd : ps.getD i P0 = P0 :=
                List.getD_eq_default _ _ (by omega)
              rw [hd] at h
              exact Bool.noConfusion h
        · intro i hi hb ha
          cases i with
          | zero =>
            rw [heq1, heq2, heq3]
            simp only [List.getD_cons_zero]
            refine ⟨rfl, le_refl _, ?_, ?_⟩
            · exact step_mul_succ_le hstep (by omega)
            · rw [(htail.frame p.team hpnotin).1, if_pos rfl]
          | succ i =>
            simp only [List.getD_cons_succ] at hb
            rw [heq1] at ha
            simp only [List.getD_cons_succ] at ha
            have hi' : i < ps.length := by
              simp only [List.length_cons] at hi
              omega
            have hf := htail.fresh i hi' hb ha
            have hq1 := getD_mem hi'
            have hne : (ps.getD i P0).team ≠ p.team := fun hEq =>
              hpnotin (hEq ▸ List.mem_map_of_mem _ hq1)
            rw [heq1, heq2, heq3]
            simp only [List.getD_cons_succ]
            refine ⟨hf.1, ?_, hf.2.2.1, ?_⟩
            · exact le_trans hf.2.1
                (step_mul_le hstep.le (List.erase_sublist p.team na).length_le)
            · rw [hf.2.2.2, if_neg hne]
        · intro i j hij hj hbi hai hbj haj
          cases i with
          | zero =>
            cases j with
            | zero => exact absurd hij (lt_irrefl 0)
            | succ j =>
              simp only [List.getD_cons_succ] at hbj
              rw [heq1] at haj
              simp only [List.getD_cons_succ] at haj
              have hj' : j < ps.length := by
                simp only [List.length_cons] at hj
                omega
              have hf := htail.fresh j hj' hbj haj
              rw [heq1]
              simp only [List.getD_cons_succ, List.getD_cons_zero]
              exact lt_of_le_of_lt hf.2.1
                (step_mul_lt hstep (by omega))
          | succ i =>
            cases j with
            | zero => exact absurd hij (by omega)
            | succ j =>
              simp only [List.getD_cons_succ] at hbi hbj
              rw [heq1] at hai haj
              simp only [List.getD_cons_succ] at hai haj
              have hj' : j < ps.length := by
                simp only [List.length_cons] at hj
                omega
              rw [heq1]
              simp only [List.getD_cons_succ]
              exact htail.order i j (by omega) hj' hbi hai hbj haj
        · refine ⟨?_, ?_, ?_, ?_⟩
          · rw [heq2]
            exact htail.inv.na_nodup
          · rw [heq1, TeamsOf_cons]
            refine List.nodup_cons.mpr ⟨?_, htail.inv.teams_nodup⟩
            rw [htail.teams]
            exact hpnotin
          · intro q hq
            rw [heq1] at hq
            rw [heq2]
            rcases List.mem_cons.mp hq with hq1 | hq2
            · subst hq1
              constructor
              · intro hfalse
                exact Bool.noConfusion hfalse
              · intro hmem
                have hsub := htail.sub.subset hmem
                exact absurd rfl (hinv.na_nodup.mem_erase_iff.mp hsub).1
            · exact htail.inv.mem_iff q hq2
          · intro q hq ha
            rw [heq1] at hq
            rw [heq2]
            rcases List.mem_cons.mp hq with hq1 | hq2
            · subst hq1
              exact step_mul_succ_le hstep (by omega)
            · exact htail.inv.bonus_lb q hq2 ha
      · -- active head, not yet at the finish
        have heq := tick_finish_cons_active env t ps na fast hpf
        rw [process_arrival_neg hcond] at heq
        have heq1 : (tick_finish env t (p :: ps) na fast).1
            = update_checkpoints env p ::
              (tick_finish env t ps na fast).1 := by rw [heq]
        have heq2 : (tick_finish env t (p :: ps) na fast).2.1
            = (tick_finish env t ps na fast).2.1 := by rw [heq]
        have heq3 : (tick_finish env t (p :: ps) na fast).2.2
            = (tick_finish env t ps na fast).2.2 := by rw [heq]
        have htail := ih na fast hinv.tail
        have hpin : p.team ∈ na :=
          (hinv.mem_iff p (List.mem_cons_self p ps)).mp hpf
        refine ⟨?_, ?_, ?_, ?_, ?_, ?_, ?_, ?_⟩
        · rw [heq1]
          simp [htail.len]
        · rw [heq1, TeamsOf_cons, TeamsOf_cons, htail.teams,
            update_checkpoints_team]
        · rw [heq2]
          exact htail.sub
        · intro tm htm
          have htm2 : tm ∉ TeamsOf ps := fun hm =>
            htm (by rw [TeamsOf_cons]; exact List.mem_cons_of_mem _ hm)
          rw [heq2, heq3]
          exact htail.frame tm htm2
        · intro i h
          cases i with
          | zero =>
            simp only [List.getD_cons_zero] at h
            rw [hpf] at h
            exact Bool.noConfusion h
          | succ i =>
            simp only [List.getD_cons_succ] at h ⊢
            rw [heq1, heq3]
            simp only [List.getD_cons_succ]
            exact htail.old i h
        · intro i hi hb ha
          cases i with
          | zero =>
            rw [heq1] at ha
            simp only [List.getD_cons_zero] at ha
            rw [update_checkpoints_arrived, hpf] at ha
            exact Bool.noConfusion ha
          | succ i =>
            simp only [List.getD_cons_succ] at hb
            rw [heq1] at ha
            simp only [List.getD_cons_succ] at ha
            have hi' : i < ps.length := by
              simp only [List.length_cons] at hi
              omega
            rw [heq1, heq2, heq3]
            simp only [List.getD_cons_succ]
            exact htail.fresh i hi' hb ha
        · intro i j hij hj hbi hai hbj haj
          cases i with
          | zero =>
            rw [heq1] at hai
            simp only [List.getD_cons_zero] at hai
            rw [update_checkpoints_arrived, hpf] at hai
            exact Bool.noConfusion hai
          | succ i =>
            cases j with
            | zero => exact absurd hij (by omega)
            | succ j =>
              simp only [List.getD_cons_succ] at hbi hbj
              rw [heq1] at hai haj
              simp only [List.getD_cons_succ] at hai haj
              have hj' : j < ps.length := by
                simp only [List.length_cons] at hj
                omega
              rw [heq1]
              simp only [List.getD_cons_succ]
              exact htail.order i j (by omega) hj' hbi hai hbj haj
        · refine ⟨?_, ?_, ?_, ?_⟩
          · rw [heq2]
            exact htail.inv.na_nodup
          · rw [heq1, TeamsOf_cons, update_checkpoints_team]
            refine List.nodup_cons.mpr ⟨?_, htail.inv.teams_nodup⟩
            rw [htail.teams]
            exact hpnotin
          · intro q hq
            rw [heq1] at hq
            rw [heq2]
            rcases List.mem_cons.mp hq with hq1 | hq2
            · subst hq1
              constructor
              · intro _
                exact ((htail.frame p.team hpnotin).2).mpr hpin
              · intro _
                rw [update_checkpoints_arrived]
                exact hpf
            · exact htail.inv.mem_iff q hq2
          · intro q hq ha
            rw [heq1] at hq
            rw [heq2]
            rcases List.mem_cons.mp hq with hq1 | hq2
            · subst hq1
              rw [update_checkpoints_arrived] at ha
              rw [hpf] at ha
              exact Bool.noConfusion ha
            · exact htail.inv.bonus_lb q hq2 ha

/-- C7: when a participant arrives, its bonus is set to score_step times
the size of players_not_arrived at that moment, its team is then removed
from the list, and its fastest time becomes min(t, stored) (conjunct a);
already-arrived participants are skipped, so one tick is the only one that
ever sets a participant's arrived flag, bonus and fastest time (conjunct
b); a newly arrived participant's fastest time takes the minimum with the
stored value (conjunct c); of two participants finishing in the same tick
the earlier-processed one gets the strictly larger bonus (conjunct d); a
participant that arrived in an earlier tick has a strictly larger bonus
than any participant arriving now (conjunct e) - so with at least two
finishers the first finisher's bonus strictly exceeds the second's; and
the race invariant is preserved, so the argument carries over every tick
(conjunct f). -/
theorem c7_finish_bonus (env : FinishEnv) (t : ℚ)
    (hstep : 0 < env.score_step) (ps : List RacePlayer) (na : List ℕ)
    (fast : ℕ → ℚ) (hinv : RaceInv env.score_step ps na) :
    (∀ (p : RacePlayer) (na' : List ℕ) (fast' : ℕ → ℚ),
      finish_cond env p →
      (process_arrival env t p na' fast').1.bonus
          = env.score_step * (na'.length : ℚ) ∧
      (process_arrival env t p na' fast').1.arrived = true ∧
      (process_arrival env t p na' fast').2.1 = na'.erase p.team ∧
      (process_arrival env t p na' fast').2.2 p.team
          = min t (fast' p.team)) ∧
    (∀ i, (ps.getD i P0).arrived = true →
      (tick_finish env t ps na fast).1.getD i P0 = ps.getD i P0 ∧
      (tick_finish env t ps na fast).2.2 (ps.getD i P0).team
        = fast (ps.getD i P0).team) ∧
    (∀ i, i < ps.length → (ps.getD i P0).arrived = false →
      ((tick_finish env t ps na fast).1.getD i P0).arrived = true →
      (tick_finish env t ps na fast).2.2 (ps.getD i P0).team
        = min t (fast (ps.getD i P0).team)) ∧
    (∀ i j, i < j → j < ps.length →
      (ps.getD i P0).arrived = false →
      ((tick_finish env t ps na fast).1.getD i P0).arrived = true →
      (ps.getD j P0).arrived = false →
      ((tick_finish env t ps na fast).1.getD j P0).arrived = true →
      ((tick_finish env t ps na fast).1.getD j P0).bonus
        < ((tick_finish env t ps na fast).1.getD i P0).bonus) ∧
    (∀ i j, j < ps.length →
      (ps.getD i P0).arrived = true →
      (ps.getD j P0).arrived = false →
      ((tick_finish env t ps na fast).1.getD j P0).arrived = true →
      ((tick_finish env t ps na fast).1.getD j P0).bonus
        < (ps.getD i P0).bonus) ∧
    RaceInv env.score_step (tick_finish env t ps na fast).1
      (tick_finish env t ps na fast).2.1 := by
  have hS := tick_spec env t hstep ps na fast hinv
  refine ⟨?_, hS.old, ?_, hS.order, ?_, hS.inv⟩
  · intro p na' fast' hc
    rw [process_arrival_pos hc]
    refine ⟨rfl, rfl, rfl, ?_⟩
    show (if p.team = p.team then min t (fast' p.team) else fast' p.team)
      = min t (fast' p.team)
    rw [if_pos rfl]
  · intro i hi hb ha
    exact (hS.fresh i hi hb ha).2.2.2
  · intro i j hj hai hbj haj
    have hf := hS.fresh j hj hbj haj
    by_cases hi : i < ps.length
    · have hlb := hinv.bonus_lb _ (getD_mem hi) hai
      have hub := hf.2.1
      have hmid : env.score_step * ((na.length : ℚ))
          < env.score_step * ((na.length : ℚ) + 1) :=
        mul_lt_mul_of_pos_left (by linarith) hstep
      linarith
    · have hd : ps.getD i P0 = P0 := List.getD_eq_default _ _ (by omega)
      rw [hd] at hai
      exact Bool.noConfusion hai

/-- C7 witness: the arrival update applied to a concrete player with two
teams still racing (bonus 10 * 2, fastest time min 5 100), and the skip of
an already arrived player over one concrete tick. -/
theorem c7_witness :
    ((process_arrival envW 5 ⟨1, 0, 0, [], false, 0⟩ [1, 2]
        (fun _ => 100)).1.bonus = envW.score_step * ((2 : ℕ) : ℚ) ∧
      (process_arrival envW 5 ⟨1, 0, 0, [], false, 0⟩ [1, 2]
        (fun _ => 100)).2.2 1 = min 5 100) ∧
    (tick_finish envW 5 [⟨1, 0, 0, [], true, 50⟩] []
        (fun _ => 100)).1.getD 0 P0 = ⟨1, 0, 0, [], true, 50⟩ := by
  constructor
  · have hinv0 : RaceInv envW.score_step [] [] :=
      ⟨List.nodup_nil, List.nodup_nil,
        fun q hq => absurd hq (List.not_mem_nil q),
        fun q hq => absurd hq (List.not_mem_nil q)⟩
    have h := (c7_finish_bonus envW 5 (by norm_num [envW]) [] [] (fun _ => 0)
        hinv0).1 ⟨1, 0, 0, [], false, 0⟩ [1, 2] (fun _ => 100)
        ⟨by norm_num [envW], rfl⟩
    exact ⟨h.1, h.2.2.2⟩
  · have hinv1 : RaceInv envW.score_step [⟨1, 0, 0, [], true, 50⟩] [] := by
      refine ⟨List.nodup_nil, ?_, ?_, ?_⟩
      · simp [TeamsOf]
      · intro q hq
        rcases List.mem_cons.mp hq with hq1 | hq1
        · rw [hq1]
          exact ⟨fun h => Bool.noConfusion h,
            fun h => absurd h (List.not_mem_nil _)⟩
        · exact absurd hq1 (List.not_mem_nil q)
      · intro q hq ha
        rcases List.mem_cons.mp hq with hq1 | hq1
        · rw [hq1]
          norm_num [envW]
        · exact absurd hq1 (List.not_mem_nil q)
    exact ((c7_finish_bonus envW 5 (by norm_num [envW])
      [⟨1, 0, 0, [], true, 50⟩]
      [] (fun _ => 100) hinv1).2.1 0 rfl).1

end Vendee

